import Mathlib

/-!
Verification of the drift-detection engine of the `kasa` repository.

The Go sources in `tools/drift.go`, `tools/drift_scan.go`, `tools/clean.go`
and the resource-type resolver (`BuildGVRFromKindAndAPIVersion` and its
tables) are shallowly embedded below.  Generic YAML/JSON documents
(`map[string]any` / `[]any` / scalars) are modelled by the inductive type
`Value`; Go maps become association lists whose diff behaviour depends only
on key membership and lookup, mirroring Go map indexing.  Numbers carry
their representation (`vInt` for the integer forms, `vFloat` for the
floating forms) so that `reflect.DeepEqual` (structural equality) and the
numeric normalization of `numericallyEqual` can both be expressed.
External collaborators (YAML parser, cluster client) enter as oracle
parameters of type `Except String _`, exactly at the call sites where the
Go code consumes their results.
-/

/-- Generic structured document value: the embedding of Go's `any` as it
occurs in parsed YAML / unstructured Kubernetes objects. -/
inductive Value where
  | vNull : Value
  | vBool : Bool → Value
  | vInt : Int → Value
  | vFloat : Rat → Value
  | vStr : String → Value
  | vArr : List Value → Value
  | vMap : List (String × Value) → Value

mutual

/-- Structural equality on document values: the embedding of Go's
`reflect.DeepEqual` at the (scalar or mixed-constructor) argument pairs
where `numericallyEqual` actually applies it. -/
def Value.beq : Value → Value → Bool
  | .vNull, .vNull => true
  | .vBool a, .vBool b => a = b
  | .vInt a, .vInt b => a = b
  | .vFloat a, .vFloat b => a = b
  | .vStr a, .vStr b => a = b
  | .vArr a, .vArr b => Value.beqList a b
  | .vMap a, .vMap b => Value.beqMap a b
  | _, _ => false
termination_by a _ => sizeOf a

/-- Elementwise structural equality of value lists. -/
def Value.beqList : List Value → List Value → Bool
  | [], [] => true
  | a :: as', b :: bs' => Value.beq a b && Value.beqList as' bs'
  | _, _ => false
termination_by a _ => sizeOf a

/-- Elementwise structural equality of association lists. -/
def Value.beqMap : List (String × Value) → List (String × Value) → Bool
  | [], [] => true
  | (k1, v1) :: as', (k2, v2) :: bs' =>
    k1 = k2 && Value.beq v1 v2 && Value.beqMap as' bs'
  | _, _ => false
termination_by a _ => sizeOf a

end

/-- Embedding of Go map indexing `m[k]`: first binding of `k` in the
association list (association lists representing Go maps have unique keys). -/
def lookupKey (m : List (String × Value)) (k : String) : Option Value :=
  match m with
  | [] => none
  | (k', v) :: rest => if k' = k then some v else lookupKey rest k

/-- The keys of an association list (embedding of `for k := range m`). -/
def keysOf (m : List (String × Value)) : List String :=
  m.map Prod.fst

/-- Embedding of Go `delete(m, k)`. -/
def eraseKey (k : String) (m : List (String × Value)) : List (String × Value) :=
  m.filter (fun p => p.1 ≠ k)

/-- Embedding of Go `m[k] = v` for a key already present in `m`. -/
def setKey (k : String) (v : Value) (m : List (String × Value)) : List (String × Value) :=
  m.map (fun p => if p.1 = k then (k, v) else p)

/-- Does the character list start with the given pattern? -/
def charListStarts : List Char → List Char → Bool
  | [], _ => true
  | _ :: _, [] => false
  | p :: ps, c :: cs => p = c && charListStarts ps cs

/-- Does the character list contain the pattern as a contiguous run? -/
def charListHas (pat : List Char) : List Char → Bool
  | [] => pat.isEmpty
  | c :: rest => charListStarts pat (c :: rest) || charListHas pat rest

/-- Embedding of Go `strings.Contains s pat` (the patterns used are ASCII,
so character-level containment coincides with Go's byte-level containment). -/
def strContains (s pat : String) : Bool :=
  charListHas pat.toList s.toList

/-- Embedding of Go `strings.HasPrefix s pat`. -/
def strStarts (s pat : String) : Bool :=
  charListStarts pat.toList s.toList

/-- Embedding of Go `strings.HasSuffix s pat`. -/
def strEnds (s pat : String) : Bool :=
  charListStarts pat.toList.reverse s.toList.reverse

/-- `DiffEntry` from `tools/drift.go`: one field-level difference.
`stored`/`live` are `Option` because the Go fields are `omitempty` and left
unset for the change types that do not carry them. -/
structure DiffEntry where
  path : String
  changeType : String
  stored : Option Value
  live : Option Value

/-- Embedding of `sort.Strings`: the lexicographically sorted arrangement
of the key slice. -/
def sortStrings (ks : List String) : List String :=
  List.insertionSort (· ≤ ·) ks

/-- The deterministic key iteration order of `DiffMaps`: union of the keys
of both maps, deduplicated, sorted. -/
def unionKeys (stored live : List (String × Value)) : List String :=
  sortStrings ((keysOf stored ++ keysOf live).dedup)

/-- Embedding of `toFloat64` from `tools/drift.go`: numeric values (any of
Go's int/uint/float forms) convert to a common numeric type; everything
else does not. -/
def toFloat64 (v : Value) : Option Rat :=
  match v with
  | .vInt n => some (n : Rat)
  | .vFloat q => some q
  | _ => none

/-- Embedding of `numericallyEqual` from `tools/drift.go`: deep equality,
or both values interpretable as numbers with the same numeric value. -/
def numericallyEqual (a b : Value) : Bool :=
  if Value.beq a b then true
  else
    match toFloat64 a, toFloat64 b with
    | some af, some bf => af = bf
    | _, _ => false

/-- Element path `path[i]` built by `diffSlices` (Go `fmt.Sprintf`). -/
def elemPath (path : String) (i : Nat) : String :=
  path ++ "[" ++ toString i ++ "]"

/-- The dotted path built for a key in `DiffMaps`. -/
def keyPath (pfx key : String) : String :=
  if pfx = "" then key else pfx ++ "." ++ key

theorem sizeOf_lookupKey {m : List (String × Value)} {k : String} {v : Value}
    (h : lookupKey m k = some v) : sizeOf v < sizeOf m := by
  induction m with
  | nil => simp [lookupKey] at h
  | cons hd tl ih =>
    obtain ⟨k', v'⟩ := hd
    simp only [lookupKey] at h
    split at h
    · cases h
      simp only [List.cons.sizeOf_spec, Prod.mk.sizeOf_spec]
      omega
    · have := ih h
      simp only [List.cons.sizeOf_spec]
      omega

mutual

/-- Embedding of `diffValues` from `tools/drift.go`. -/
def diffValues (stored live : Value) (path : String) : List DiffEntry :=
  match stored, live with
  | .vMap storedMap, .vMap liveMap => DiffMaps storedMap liveMap path
  | .vArr storedSlice, .vArr liveSlice => diffSlices storedSlice liveSlice path
  | a, b =>
    if numericallyEqual a b then []
    else [⟨path, "changed", some a, some b⟩]
termination_by (sizeOf stored + sizeOf live, 2, 0)

/-- Embedding of `DiffMaps` from `tools/drift.go`: recursively compares two
maps; iterates the sorted union of keys. -/
def DiffMaps (stored live : List (String × Value)) (pfx : String) : List DiffEntry :=
  diffKeyList stored live pfx (unionKeys stored live)
termination_by (sizeOf stored + sizeOf live, 1, 0)

/-- The loop body of `DiffMaps` over the sorted key list. -/
def diffKeyList (stored live : List (String × Value)) (pfx : String) :
    List String → List DiffEntry
  | [] => []
  | key :: ks =>
    (match hs : lookupKey stored key, hl : lookupKey live key with
     | none, some liveVal => [⟨keyPath pfx key, "added", none, some liveVal⟩]
     | some storedVal, none => [⟨keyPath pfx key, "removed", some storedVal, none⟩]
     | some storedVal, some liveVal => diffValues storedVal liveVal (keyPath pfx key)
     | none, none => []) ++ diffKeyList stored live pfx ks
termination_by ks => (sizeOf stored + sizeOf live, 0, ks.length)
decreasing_by
  all_goals
    first
    | (apply Prod.Lex.left
       have h1 := sizeOf_lookupKey hs
       have h2 := sizeOf_lookupKey hl
       omega)
    | decreasing_tactic

/-- Embedding of `diffSlices` from `tools/drift.go`. -/
def diffSlices (stored live : List Value) (path : String) : List DiffEntry :=
  diffSliceFrom stored live path 0
termination_by (sizeOf stored + sizeOf live, 1, 0)

/-- The indexed loop of `diffSlices`, recursing over both slices in step. -/
def diffSliceFrom : List Value → List Value → String → Nat → List DiffEntry
  | [], [], _, _ => []
  | [], l :: ls, path, i =>
    ⟨elemPath path i, "added", none, some l⟩ :: diffSliceFrom [] ls path (i + 1)
  | s :: ss, [], path, i =>
    ⟨elemPath path i, "removed", some s, none⟩ :: diffSliceFrom ss [] path (i + 1)
  | s :: ss, l :: ls, path, i =>
    diffValues s l (elemPath path i) ++ diffSliceFrom ss ls path (i + 1)
termination_by stored live _ _ => (sizeOf stored + sizeOf live, 0, 0)

end

/-! ## Canonicalizer (`tools/clean.go`) -/

/-- Embedding of `shouldRemoveAnnotation` from `tools/clean.go`. -/
def shouldRemoveAnnotation (key : String) : Bool :=
  if strStarts key "kubectl.kubernetes.io/" then true
  else if strStarts key "deployment.kubernetes.io/" then true
  else if key = "kubernetes.io/change-cause" then true
  else false

/-- The annotation-cleaning step of `cleanForImport`: filter tooling
annotations out of `metadata.annotations`, dropping the map when it becomes
empty. -/
def cleanAnnotations (md : List (String × Value)) : List (String × Value) :=
  match lookupKey md "annotations" with
  | some (.vMap ann) =>
    let kept := ann.filter (fun p => ¬ shouldRemoveAnnotation p.1)
    if kept.isEmpty then eraseKey "annotations" md
    else setKey "annotations" (Value.vMap kept) md
  | _ => md

/-- The metadata-cleaning step of `cleanForImport`: drop the six
runtime-assigned fields, then clean annotations. -/
def cleanMetadataFields (md : List (String × Value)) : List (String × Value) :=
  cleanAnnotations
    (eraseKey "selfLink"
      (eraseKey "managedFields"
        (eraseKey "creationTimestamp"
          (eraseKey "generation"
            (eraseKey "resourceVersion"
              (eraseKey "uid" md))))))

/-- The metadata block of `cleanForImport`: when `metadata` is a mapping,
replace it by its cleaned form (the Go code mutates it in place). -/
def cleanMetadataStage (resource : List (String × Value)) : List (String × Value) :=
  match lookupKey resource "metadata" with
  | some (.vMap md) => setKey "metadata" (.vMap (cleanMetadataFields md)) resource
  | _ => resource

/-- The service-specific block of `cleanForImport`: when `spec` is a
mapping, drop the cluster-assigned `clusterIP`/`clusterIPs` fields. -/
def cleanSpecStage (resource : List (String × Value)) : List (String × Value) :=
  match lookupKey resource "spec" with
  | some (.vMap sp) =>
    setKey "spec" (.vMap (eraseKey "clusterIPs" (eraseKey "clusterIP" sp))) resource
  | _ => resource

/-- Embedding of `cleanForImport` from `tools/clean.go` (the Go function
mutates the map in place; here the cleaned document is returned): clean
the metadata block, remove the `status` subtree, clean the spec block. -/
def cleanForImport (resource : List (String × Value)) : List (String × Value) :=
  cleanSpecStage (eraseKey "status" (cleanMetadataStage resource))

/-! ## Resource type resolver (`tools/gvr.go` tables and functions) -/

/-- `schema.GroupVersionResource`. -/
structure GroupVersionResource where
  group : String
  version : String
  resource : String
deriving DecidableEq

/-- The zero `GroupVersionResource` returned on failed lookups. -/
def emptyGVR : GroupVersionResource := ⟨"", "", ""⟩

/-- Embedding of the `CommonGVRs` table: known resource kinds (lowercase)
to their GroupVersionResource. -/
def CommonGVRs (kind : String) : Option GroupVersionResource :=
  match kind with
  | "pod" => some ⟨"", "v1", "pods"⟩
  | "service" => some ⟨"", "v1", "services"⟩
  | "configmap" => some ⟨"", "v1", "configmaps"⟩
  | "secret" => some ⟨"", "v1", "secrets"⟩
  | "namespace" => some ⟨"", "v1", "namespaces"⟩
  | "persistentvolumeclaim" => some ⟨"", "v1", "persistentvolumeclaims"⟩
  | "serviceaccount" => some ⟨"", "v1", "serviceaccounts"⟩
  | "deployment" => some ⟨"apps", "v1", "deployments"⟩
  | "statefulset" => some ⟨"apps", "v1", "statefulsets"⟩
  | "daemonset" => some ⟨"apps", "v1", "daemonsets"⟩
  | "replicaset" => some ⟨"apps", "v1", "replicasets"⟩
  | "job" => some ⟨"batch", "v1", "jobs"⟩
  | "cronjob" => some ⟨"batch", "v1", "cronjobs"⟩
  | "ingress" => some ⟨"networking.k8s.io", "v1", "ingresses"⟩
  | "networkpolicy" => some ⟨"networking.k8s.io", "v1", "networkpolicies"⟩
  | "role" => some ⟨"rbac.authorization.k8s.io", "v1", "roles"⟩
  | "rolebinding" => some ⟨"rbac.authorization.k8s.io", "v1", "rolebindings"⟩
  | "clusterrole" => some ⟨"rbac.authorization.k8s.io", "v1", "clusterroles"⟩
  | "clusterrolebinding" => some ⟨"rbac.authorization.k8s.io", "v1", "clusterrolebindings"⟩
  | "gateway" => some ⟨"gateway.networking.k8s.io", "v1", "gateways"⟩
  | "httproute" => some ⟨"gateway.networking.k8s.io", "v1", "httproutes"⟩
  | "grpcroute" => some ⟨"gateway.networking.k8s.io", "v1", "grpcroutes"⟩
  | "tcproute" => some ⟨"gateway.networking.k8s.io", "v1", "tcproutes"⟩
  | "udproute" => some ⟨"gateway.networking.k8s.io", "v1", "udproutes"⟩
  | "tlsroute" => some ⟨"gateway.networking.k8s.io", "v1", "tlsroutes"⟩
  | "referencegrant" => some ⟨"gateway.networking.k8s.io", "v1beta1", "referencegrants"⟩
  | "gatewayclass" => some ⟨"gateway.networking.k8s.io", "v1", "gatewayclasses"⟩
  | "certificate" => some ⟨"cert-manager.io", "v1", "certificates"⟩
  | "issuer" => some ⟨"cert-manager.io", "v1", "issuers"⟩
  | "clusterissuer" => some ⟨"cert-manager.io", "v1", "clusterissuers"⟩
  | "certificaterequest" => some ⟨"cert-manager.io", "v1", "certificaterequests"⟩
  | "horizontalpodautoscaler" => some ⟨"autoscaling", "v2", "horizontalpodautoscalers"⟩
  | _ => none

/-- Embedding of the `KindAliases` table: common aliases to canonical kind
names. -/
def KindAliases (k : String) : Option String :=
  match k with
  | "po" => some "pod"
  | "pods" => some "pod"
  | "svc" => some "service"
  | "services" => some "service"
  | "cm" => some "configmap"
  | "configmaps" => some "configmap"
  | "secrets" => some "secret"
  | "ns" => some "namespace"
  | "namespaces" => some "namespace"
  | "pvc" => some "persistentvolumeclaim"
  | "persistentvolumeclaims" => some "persistentvolumeclaim"
  | "sa" => some "serviceaccount"
  | "serviceaccounts" => some "serviceaccount"
  | "deploy" => some "deployment"
  | "deployments" => some "deployment"
  | "sts" => some "statefulset"
  | "statefulsets" => some "statefulset"
  | "ds" => some "daemonset"
  | "daemonsets" => some "daemonset"
  | "rs" => some "replicaset"
  | "replicasets" => some "replicaset"
  | "jobs" => some "job"
  | "cronjobs" => some "cronjob"
  | "ing" => some "ingress"
  | "ingresses" => some "ingress"
  | "netpol" => some "networkpolicy"
  | "networkpolicies" => some "networkpolicy"
  | "roles" => some "role"
  | "rolebindings" => some "rolebinding"
  | "clusterroles" => some "clusterrole"
  | "clusterrolebindings" => some "clusterrolebinding"
  | "gw" => some "gateway"
  | "gateways" => some "gateway"
  | "httproutes" => some "httproute"
  | "grpcroutes" => some "grpcroute"
  | "tcproutes" => some "tcproute"
  | "udproutes" => some "udproute"
  | "tlsroutes" => some "tlsroute"
  | "referencegrants" => some "referencegrant"
  | "gatewayclasses" => some "gatewayclass"
  | "gc" => some "gatewayclass"
  | "cert" => some "certificate"
  | "certificates" => some "certificate"
  | "issuers" => some "issuer"
  | "clusterissuers" => some "clusterissuer"
  | "certificaterequests" => some "certificaterequest"
  | "cr" => some "certificaterequest"
  | "hpa" => some "horizontalpodautoscaler"
  | "horizontalpodautoscalers" => some "horizontalpodautoscaler"
  | _ => none

/-- Embedding of `NormalizeKindName`: lowercase, then apply the alias
table. -/
def NormalizeKindName (kind : String) : String :=
  let k := kind.toLower
  match KindAliases k with
  | some canonical => canonical
  | none => k

/-- Embedding of `LookupGVR`: table lookup of the normalized kind,
returning the GVR together with the `found` flag. -/
def LookupGVR (kind : String) : GroupVersionResource × Bool :=
  match CommonGVRs (NormalizeKindName kind) with
  | some gvr => (gvr, true)
  | none => (emptyGVR, false)

/-- Embedding of `ParseAPIVersion` (`strings.SplitN(apiVersion, "/", 2)`):
`"apps/v1"` becomes `("apps", "v1")`, bare `"v1"` becomes `("", "v1")`. -/
def ParseAPIVersion (apiVersion : String) : String × String :=
  match apiVersion.splitOn "/" with
  | [] => ("", apiVersion)
  | [v] => ("", v)
  | g :: rest => (g, String.intercalate "/" rest)

/-- The pluralization fallback used for unknown kinds: append "es" after
s/x/ch/sh, otherwise append "s". -/
def pluralize (resource : String) : String :=
  if strEnds resource "s" || strEnds resource "x" ||
      strEnds resource "ch" || strEnds resource "sh" then
    resource ++ "es"
  else
    resource ++ "s"

/-- Embedding of `BuildGVRFromKindAndAPIVersion`. -/
def BuildGVRFromKindAndAPIVersion (kind apiVersion : String) :
    GroupVersionResource × Bool :=
  let normalized := NormalizeKindName kind
  if apiVersion = "" then
    LookupGVR normalized
  else
    let gv := ParseAPIVersion apiVersion
    match CommonGVRs normalized with
    | some gvr => (⟨gv.1, gv.2, gvr.resource⟩, true)
    | none => (⟨gv.1, gv.2, pluralize normalized⟩, true)

/-! ## Drift classification (`tools/drift.go`) and scan (`tools/drift_scan.go`) -/

/-- `DriftResult` from `tools/drift.go` (`ns` stands for the Go field
`Namespace`). Defaults are the Go zero values. -/
structure DriftResult where
  ns : String := ""
  name : String := ""
  kind : String := ""
  status : String := ""
  diffs : List DiffEntry := []
  error : String := ""

/-- Embedding of `FetchAndCleanLiveResource`.  The dynamic-client `Get`
call is external; its outcome enters as the oracle `get` (error values
carry `err.Error()`). -/
def FetchAndCleanLiveResource (kind apiVersion : String)
    (get : Except String (List (String × Value))) :
    Except String (List (String × Value)) :=
  match BuildGVRFromKindAndAPIVersion kind apiVersion with
  | (_, false) => .error ("unknown resource kind '" ++ kind ++ "'")
  | (_, true) =>
    match get with
    | .error e => .error e
    | .ok obj => .ok (cleanForImport obj)

/-- The apiVersion extraction `storedMap["apiVersion"].(string)` of
`CompareManifest`: the string value if present, otherwise `""`. -/
def extractAPIVersion (storedMap : List (String × Value)) : String :=
  match lookupKey storedMap "apiVersion" with
  | some (.vStr s) => s
  | _ => ""

/-- Embedding of `CompareManifest`.  `parse` is the oracle for
`yaml.Unmarshal` on the stored text; `get` is the oracle for the dynamic
`Get` of the live resource. -/
def CompareManifest (ns name kind : String)
    (parse : Except String (List (String × Value)))
    (get : Except String (List (String × Value))) : DriftResult :=
  match parse with
  | .error e =>
    { ns := ns, name := name, kind := kind, status := "error",
      error := "failed to parse stored manifest: " ++ e }
  | .ok storedRaw =>
    let apiVersion := extractAPIVersion storedRaw
    let storedMap := cleanForImport storedRaw
    match FetchAndCleanLiveResource kind apiVersion get with
    | .error errStr =>
      if strContains errStr "not found" then
        { ns := ns, name := name, kind := kind, status := "missing" }
      else
        { ns := ns, name := name, kind := kind, status := "error", error := errStr }
    | .ok liveMap =>
      let allDiffs := DiffMaps storedMap liveMap ""
      let diffs := allDiffs.filter (fun d => d.changeType ≠ "added")
      if diffs.isEmpty then
        { ns := ns, name := name, kind := kind, status := "in_sync" }
      else
        { ns := ns, name := name, kind := kind, status := "drifted", diffs := diffs }

/-- `manifest.ManifestInfo` as used by the scan: namespace, application
name, resource type. -/
structure ManifestInfo where
  ns : String
  app : String
  ty : String

/-- The externally determined outcome for one manifest during a scan:
either `ReadManifest` fails, or it yields text whose parse and live-get
outcomes are the two oracles consumed by `CompareManifest`. -/
inductive ManifestOutcome where
  | readErr (msg : String)
  | readOk (parse : Except String (List (String × Value)))
      (get : Except String (List (String × Value)))

/-- `DriftScanResults` from `tools/drift.go`. -/
structure DriftScanResults where
  results : List DriftResult := []
  total : Nat := 0
  inSync : Nat := 0
  drifted : Nat := 0
  missing : Nat := 0
  errors : Nat := 0

/-- Appending one `DriftResult` and bumping the matching counter: the loop
body bookkeeping of `RunDriftScan` (the `switch dr.Status`). -/
def tallyResult (acc : DriftScanResults) (dr : DriftResult) : DriftScanResults :=
  let acc := { acc with results := acc.results ++ [dr] }
  if dr.status = "in_sync" then { acc with inSync := acc.inSync + 1 }
  else if dr.status = "drifted" then { acc with drifted := acc.drifted + 1 }
  else if dr.status = "missing" then { acc with missing := acc.missing + 1 }
  else if dr.status = "error" then { acc with errors := acc.errors + 1 }
  else acc

/-- One iteration of the `RunDriftScan` loop: a failed `ReadManifest`
synthesizes an error result directly; otherwise the manifest is classified
by `CompareManifest`. -/
def scanStep (acc : DriftScanResults) (item : ManifestInfo × ManifestOutcome) :
    DriftScanResults :=
  match item.2 with
  | .readErr msg =>
    tallyResult acc
      { ns := item.1.ns, name := item.1.app, kind := item.1.ty,
        status := "error", error := msg }
  | .readOk parse get =>
    tallyResult acc (CompareManifest item.1.ns item.1.app item.1.ty parse get)

/-- Embedding of `RunDriftScan`: `none` when there are no manifests
(Go `nil, nil`), otherwise the fold of the loop over the listed manifests,
starting from `Total = len(manifests)`. -/
def RunDriftScan (items : List (ManifestInfo × ManifestOutcome)) :
    Option DriftScanResults :=
  if items.isEmpty then none
  else some (items.foldl scanStep { total := items.length })

/-! ## Supporting lemmas -/

theorem char_toLower_idem (c : Char) : c.toLower.toLower = c.toLower := by
  unfold Char.toLower
  by_cases h : c.toNat ≥ 65 ∧ c.toNat ≤ 90
  · rw [if_pos h]
    have hv : Nat.isValidChar (c.toNat + 32) := Or.inl (by omega)
    have ht : (Char.ofNat (c.toNat + 32)).toNat = c.toNat + 32 := by
      rw [Char.ofNat, dif_pos hv]
      rfl
    rw [if_neg (by rw [ht]; omega)]
  · rw [if_neg h, if_neg h]

theorem string_toLower_idem (s : String) : s.toLower.toLower = s.toLower := by
  simp only [String.toLower, String.map_eq, List.map_map]
  have h : Char.toLower ∘ Char.toLower = Char.toLower := funext char_toLower_idem
  rw [h]

theorem toLower_eq_self (s : String)
    (h : ∀ c ∈ s.data, ¬(65 ≤ c.toNat ∧ c.toNat ≤ 90)) : s.toLower = s := by
  obtain ⟨l⟩ := s
  show String.map Char.toLower ⟨l⟩ = ⟨l⟩
  rw [String.map_eq]
  congr 1
  induction l with
  | nil => rfl
  | cons c cs ih =>
    have hc := h c (by simp)
    have hlow : Char.toLower c = c := by
      unfold Char.toLower
      rw [if_neg hc]
    simp only [List.map_cons, hlow, List.cons.injEq, true_and]
    exact ih (fun x hx => h x (by simp [hx]))

theorem normalizeKindName_idem (kind : String) :
    NormalizeKindName (NormalizeKindName kind) = NormalizeKindName kind := by
  cases hA : KindAliases kind.toLower with
  | none =>
    have h1 : NormalizeKindName kind = kind.toLower := by
      unfold NormalizeKindName
      simp [hA]
    rw [h1]
    unfold NormalizeKindName
    rw [string_toLower_idem]
    simp [hA]
  | some c =>
    have h1 : NormalizeKindName kind = c := by
      unfold NormalizeKindName
      simp [hA]
    rw [h1]
    unfold KindAliases at hA
    split at hA <;>
      first
      | (injection hA; done)
      | (injection hA with h
         subst h
         unfold NormalizeKindName
         rw [toLower_eq_self _ (by decide)]
         rfl)

/-- C4: resolution behaviour of `BuildGVRFromKindAndAPIVersion`:
(1) an unknown kind (after lowercasing and alias normalization) with an
empty explicit API version fails (`found = false`);
(2) a supplied API version's parsed group/version override the table's,
while the plural resource name comes from the table when the kind is known;
(3) for an unknown kind with a supplied API version the plural name is the
heuristic "es" after s/x/ch/sh, otherwise "s", with `found = true`. -/
theorem BuildGVR_resolution :
    (∀ kind : String, CommonGVRs (NormalizeKindName kind) = none →
      BuildGVRFromKindAndAPIVersion kind "" = (emptyGVR, false)) ∧
    (∀ kind apiVersion : String, ∀ gvr : GroupVersionResource, apiVersion ≠ "" →
      CommonGVRs (NormalizeKindName kind) = some gvr →
      BuildGVRFromKindAndAPIVersion kind apiVersion =
        (⟨(ParseAPIVersion apiVersion).1, (ParseAPIVersion apiVersion).2,
          gvr.resource⟩, true)) ∧
    (∀ kind apiVersion : String, apiVersion ≠ "" →
      CommonGVRs (NormalizeKindName kind) = none →
      BuildGVRFromKindAndAPIVersion kind apiVersion =
        (⟨(ParseAPIVersion apiVersion).1, (ParseAPIVersion apiVersion).2,
          (if strEnds (NormalizeKindName kind) "s" || strEnds (NormalizeKindName kind) "x" ||
              strEnds (NormalizeKindName kind) "ch" || strEnds (NormalizeKindName kind) "sh" then
            NormalizeKindName kind ++ "es"
          else
            NormalizeKindName kind ++ "s")⟩, true)) := by
  refine ⟨?_, ?_, ?_⟩
  · intro kind h
    unfold BuildGVRFromKindAndAPIVersion
    unfold LookupGVR
    simp only [normalizeKindName_idem, h]
    simp
  · intro kind apiVersion gvr hne h
    unfold BuildGVRFromKindAndAPIVersion
    rw [if_neg hne]
    simp [h]
  · intro kind apiVersion hne h
    unfold BuildGVRFromKindAndAPIVersion
    rw [if_neg hne]
    simp [h, pluralize]

theorem toLower_lit (s t : String) (h : s.data.map Char.toLower = t.data) :
    s.toLower = t := by
  obtain ⟨l⟩ := s
  obtain ⟨m⟩ := t
  show String.map Char.toLower ⟨l⟩ = ⟨m⟩
  rw [String.map_eq]
  exact congrArg String.mk h

/-- Witness for C4 at concrete inputs: an unknown kind with no API version
fails; a known kind with an explicit API version takes the parsed
group/version but the table's plural; an unknown kind with an API version
is pluralized heuristically. -/
theorem BuildGVR_resolution_witness :
    BuildGVRFromKindAndAPIVersion "Widget" "" = (emptyGVR, false) ∧
    BuildGVRFromKindAndAPIVersion "Deployment" "example.com/v2" =
      (⟨(ParseAPIVersion "example.com/v2").1, (ParseAPIVersion "example.com/v2").2,
        "deployments"⟩, true) ∧
    BuildGVRFromKindAndAPIVersion "Widget" "example.com/v1" =
      (⟨(ParseAPIVersion "example.com/v1").1, (ParseAPIVersion "example.com/v1").2,
        (if strEnds (NormalizeKindName "Widget") "s" || strEnds (NormalizeKindName "Widget") "x" ||
            strEnds (NormalizeKindName "Widget") "ch" || strEnds (NormalizeKindName "Widget") "sh" then
          NormalizeKindName "Widget" ++ "es"
        else
          NormalizeKindName "Widget" ++ "s")⟩, true) := by
  have hW : NormalizeKindName "Widget" = "widget" := by
    unfold NormalizeKindName
    rw [toLower_lit "Widget" "widget" (by decide)]
    decide
  have hD : NormalizeKindName "Deployment" = "deployment" := by
    unfold NormalizeKindName
    rw [toLower_lit "Deployment" "deployment" (by decide)]
    decide
  refine ⟨?_, ?_, ?_⟩
  · exact BuildGVR_resolution.1 "Widget" (by rw [hW]; decide)
  · exact BuildGVR_resolution.2.1 "Deployment" "example.com/v2"
      ⟨"apps", "v1", "deployments"⟩ (by decide) (by rw [hD]; decide)
  · exact BuildGVR_resolution.2.2 "Widget" "example.com/v1" (by decide) (by rw [hW]; decide)

theorem beqList_refl_aux (n : Nat)
    (ih : ∀ v : Value, sizeOf v ≤ n → Value.beq v v = true) :
    ∀ xs : List Value, sizeOf xs ≤ n → Value.beqList xs xs = true := by
  intro xs
  induction xs with
  | nil => intro _; simp [Value.beqList]
  | cons x rest ihx =>
    intro h
    simp only [List.cons.sizeOf_spec] at h
    simp only [Value.beqList, Bool.and_eq_true]
    exact ⟨ih x (by omega), ihx (by omega)⟩

theorem beqMap_refl_aux (n : Nat)
    (ih : ∀ v : Value, sizeOf v ≤ n → Value.beq v v = true) :
    ∀ m : List (String × Value), sizeOf m ≤ n → Value.beqMap m m = true := by
  intro m
  induction m with
  | nil => intro _; simp [Value.beqMap]
  | cons kv rest ihm =>
    intro h
    obtain ⟨k, v⟩ := kv
    simp only [List.cons.sizeOf_spec, Prod.mk.sizeOf_spec] at h
    simp only [Value.beqMap, Bool.and_eq_true, decide_eq_true_eq]
    exact ⟨⟨trivial, ih v (by omega)⟩, ihm (by omega)⟩

theorem beq_refl_bounded : ∀ n : Nat, ∀ v : Value, sizeOf v ≤ n → Value.beq v v = true := by
  intro n
  induction n with
  | zero =>
    intro v h
    exfalso
    cases v <;> simp_arith at h
  | succ n ih =>
    intro v h
    cases v with
    | vNull => simp [Value.beq]
    | vBool b => simp [Value.beq]
    | vInt i => simp [Value.beq]
    | vFloat q => simp [Value.beq]
    | vStr s => simp [Value.beq]
    | vArr xs =>
      simp only [Value.vArr.sizeOf_spec] at h
      simp only [Value.beq]
      exact beqList_refl_aux n ih xs (by omega)
    | vMap m =>
      simp only [Value.vMap.sizeOf_spec] at h
      simp only [Value.beq]
      exact beqMap_refl_aux n ih m (by omega)

theorem Value.beq_refl (v : Value) : Value.beq v v = true :=
  beq_refl_bounded (sizeOf v) v (Nat.le_refl _)

theorem numericallyEqual_refl (v : Value) : numericallyEqual v v = true := by
  simp [numericallyEqual, Value.beq_refl]

theorem diffSliceFrom_self_aux (n : Nat)
    (ih : ∀ v : Value, sizeOf v ≤ n → ∀ p, diffValues v v p = []) :
    ∀ xs : List Value, sizeOf xs ≤ n → ∀ p i, diffSliceFrom xs xs p i = [] := by
  intro xs
  induction xs with
  | nil => intro _ p i; simp [diffSliceFrom]
  | cons x rest ihx =>
    intro h p i
    simp only [List.cons.sizeOf_spec] at h
    simp only [diffSliceFrom, List.append_eq_nil]
    exact ⟨ih x (by omega) _, ihx (by omega) p (i + 1)⟩

theorem diffKeyList_self_aux (n : Nat)
    (ih : ∀ v : Value, sizeOf v ≤ n → ∀ p, diffValues v v p = [])
    (m : List (String × Value)) (hm : sizeOf m ≤ n) :
    ∀ p ks, diffKeyList m m p ks = [] := by
  intro p ks
  induction ks with
  | nil => simp [diffKeyList]
  | cons k rest ihk =>
    rw [diffKeyList]
    cases hk : lookupKey m k with
    | none => simp [hk, ihk]
    | some v =>
      have hv : sizeOf v ≤ n := le_of_lt (lt_of_lt_of_le (sizeOf_lookupKey hk) hm)
      simp [hk, ih v hv, ihk]

theorem diffValues_self_bounded :
    ∀ n : Nat, ∀ v : Value, sizeOf v ≤ n → ∀ p, diffValues v v p = [] := by
  intro n
  induction n with
  | zero =>
    intro v h
    exfalso
    cases v <;> simp_arith at h
  | succ n ih =>
    intro v h p
    cases v with
    | vMap m =>
      simp only [Value.vMap.sizeOf_spec] at h
      simp only [diffValues, DiffMaps]
      exact diffKeyList_self_aux n ih m (by omega) p _
    | vArr xs =>
      simp only [Value.vArr.sizeOf_spec] at h
      simp only [diffValues, diffSlices]
      exact diffSliceFrom_self_aux n ih xs (by omega) p 0
    | vNull => simp [diffValues, numericallyEqual_refl]
    | vBool b => simp [diffValues, numericallyEqual_refl]
    | vInt i => simp [diffValues, numericallyEqual_refl]
    | vFloat q => simp [diffValues, numericallyEqual_refl]
    | vStr s => simp [diffValues, numericallyEqual_refl]

theorem diffValues_self (v : Value) (p : String) : diffValues v v p = [] :=
  diffValues_self_bounded (sizeOf v) v (Nat.le_refl _) p

theorem DiffMaps_self (m : List (String × Value)) (p : String) : DiffMaps m m p = [] := by
  rw [DiffMaps]
  exact diffKeyList_self_aux (sizeOf m)
    (fun v hv q => diffValues_self_bounded (sizeOf m) v hv q) m (Nat.le_refl _) p _

/-- C8: Identity — diffing the canonicalization of any well-formed document
against itself with the empty path produces the empty diff list. -/
theorem diff_canonicalize_self (X : List (String × Value)) :
    DiffMaps (cleanForImport X) (cleanForImport X) "" = [] :=
  DiffMaps_self (cleanForImport X) ""

theorem diffKeyList_nil_filter (m : List (String × Value)) (p : String) :
    ∀ ks, (diffKeyList [] m p ks).filter (fun d => d.changeType ≠ "added") = [] := by
  intro ks
  induction ks with
  | nil => simp [diffKeyList]
  | cons k rest ih =>
    rw [diffKeyList, List.filter_append, ih, List.append_nil]
    cases hk : lookupKey m k with
    | none => simp [lookupKey, hk]
    | some v => simp [lookupKey, hk]

theorem DiffMaps_nil_filter (m : List (String × Value)) :
    (DiffMaps [] m "").filter (fun d => d.changeType ≠ "added") = [] := by
  rw [DiffMaps]
  exact diffKeyList_nil_filter m "" _

theorem normalize_service : NormalizeKindName "service" = "service" := by
  unfold NormalizeKindName
  rw [toLower_eq_self "service" (by decide)]
  decide

theorem normalize_widget : NormalizeKindName "Widget" = "widget" := by
  unfold NormalizeKindName
  rw [toLower_lit "Widget" "widget" (by decide)]
  decide

theorem buildGVR_service_empty :
    BuildGVRFromKindAndAPIVersion "service" "" = (⟨"", "v1", "services"⟩, true) := by
  unfold BuildGVRFromKindAndAPIVersion LookupGVR
  simp only [normalize_service]
  decide

theorem normalize_widget_lower : NormalizeKindName "widget" = "widget" := by
  unfold NormalizeKindName
  rw [toLower_eq_self "widget" (by decide)]
  decide

theorem buildGVR_widget_empty :
    BuildGVRFromKindAndAPIVersion "Widget" "" = (emptyGVR, false) := by
  unfold BuildGVRFromKindAndAPIVersion LookupGVR
  simp only [normalize_widget, normalize_widget_lower]
  decide

theorem fetch_service_ok (live : List (String × Value)) :
    FetchAndCleanLiveResource "service" "" (.ok live) = .ok (cleanForImport live) := by
  unfold FetchAndCleanLiveResource
  rw [buildGVR_service_empty]

theorem fetch_service_err (msg : String) :
    FetchAndCleanLiveResource "service" "" (.error msg) = .error msg := by
  unfold FetchAndCleanLiveResource
  rw [buildGVR_service_empty]

theorem fetch_widget_unknown (get : Except String (List (String × Value))) :
    FetchAndCleanLiveResource "Widget" "" get = .error "unknown resource kind 'Widget'" := by
  unfold FetchAndCleanLiveResource
  rw [buildGVR_widget_empty]
  simp

/-- C1: when the stored text parses and the live fetch succeeds,
`CompareManifest` diffs the two canonicalized documents, keeps only the
non-`added` entries, and classifies: `in_sync` (empty `Diffs`) exactly when
the filtered list is empty, else `drifted` carrying exactly that list. -/
theorem compareManifest_classification (ns name kind : String)
    (storedRaw liveMap : List (String × Value))
    (get : Except String (List (String × Value)))
    (h : FetchAndCleanLiveResource kind (extractAPIVersion storedRaw) get = .ok liveMap) :
    ((DiffMaps (cleanForImport storedRaw) liveMap "").filter
        (fun d => d.changeType ≠ "added") = [] →
      CompareManifest ns name kind (.ok storedRaw) get =
        { ns := ns, name := name, kind := kind, status := "in_sync" }) ∧
    ((DiffMaps (cleanForImport storedRaw) liveMap "").filter
        (fun d => d.changeType ≠ "added") ≠ [] →
      CompareManifest ns name kind (.ok storedRaw) get =
        { ns := ns, name := name, kind := kind, status := "drifted",
          diffs := (DiffMaps (cleanForImport storedRaw) liveMap "").filter
            (fun d => d.changeType ≠ "added") }) := by
  constructor <;> intro hf
  · simp only [CompareManifest, h]
    rw [hf]
    rfl
  · simp only [CompareManifest, h]
    cases hcase : (DiffMaps (cleanForImport storedRaw) liveMap "").filter
        (fun d => d.changeType ≠ "added") with
    | nil => exact absurd hcase hf
    | cons a l => rfl

/-- Witness for C1: a stored/live pair differing in one field is
`drifted` with exactly that entry; an identical pair is `in_sync`. -/
theorem compareManifest_classification_witness :
    CompareManifest "default" "myapp" "service"
        (.ok [("replicas", .vInt 3)]) (.ok [("replicas", .vInt 5)]) =
      { ns := "default", name := "myapp", kind := "service", status := "drifted",
        diffs := [⟨"replicas", "changed", some (.vInt 3), some (.vInt 5)⟩] } ∧
    CompareManifest "default" "myapp" "service"
        (.ok [("replicas", .vInt 3)]) (.ok [("replicas", .vInt 3)]) =
      { ns := "default", name := "myapp", kind := "service", status := "in_sync" } := by
  have hd := (compareManifest_classification "default" "myapp" "service"
    [("replicas", .vInt 3)] [("replicas", .vInt 5)] (.ok [("replicas", .vInt 5)])
    (fetch_service_ok [("replicas", .vInt 5)])).2
  have hs := (compareManifest_classification "default" "myapp" "service"
    [("replicas", .vInt 3)] [("replicas", .vInt 3)] (.ok [("replicas", .vInt 3)])
    (fetch_service_ok [("replicas", .vInt 3)])).1
  constructor
  · rw [hd (by
      simp [cleanForImport, cleanMetadataStage, cleanSpecStage, lookupKey, eraseKey,
        DiffMaps, diffKeyList, diffValues,
        unionKeys, sortStrings, keysOf, keyPath, numericallyEqual, Value.beq, toFloat64])]
    simp [cleanForImport, cleanMetadataStage, cleanSpecStage, lookupKey, eraseKey,
        DiffMaps, diffKeyList, diffValues,
      unionKeys, sortStrings, keysOf, keyPath, numericallyEqual, Value.beq, toFloat64]
  · exact hs (by
      simp [cleanForImport, cleanMetadataStage, cleanSpecStage, lookupKey, eraseKey,
        DiffMaps, diffKeyList, diffValues,
        unionKeys, sortStrings, keysOf, keyPath, numericallyEqual, Value.beq, toFloat64])

/-- C2: when the stored text parses and the live fetch fails,
`CompareManifest` returns `missing` exactly when the failure message
signals that the resource does not exist (the "not found" form the
collaborator uses), and for every other failure message returns `error`
with the message preserved verbatim; the diff list is empty in both
cases. -/
theorem compareManifest_fetch_failure (ns name kind : String)
    (storedRaw : List (String × Value))
    (get : Except String (List (String × Value))) (msg : String)
    (h : FetchAndCleanLiveResource kind (extractAPIVersion storedRaw) get = .error msg) :
    CompareManifest ns name kind (.ok storedRaw) get =
      (if strContains msg "not found" then
        { ns := ns, name := name, kind := kind, status := "missing" }
      else
        { ns := ns, name := name, kind := kind, status := "error", error := msg }) ∧
    ((CompareManifest ns name kind (.ok storedRaw) get).status = "missing" ↔
      strContains msg "not found" = true) ∧
    (CompareManifest ns name kind (.ok storedRaw) get).diffs = [] := by
  have hmain : CompareManifest ns name kind (.ok storedRaw) get =
      (if strContains msg "not found" then
        { ns := ns, name := name, kind := kind, status := "missing" }
      else
        { ns := ns, name := name, kind := kind, status := "error", error := msg }) := by
    simp only [CompareManifest, h]
  refine ⟨hmain, ?_, ?_⟩
  · rw [hmain]
    by_cases hc : strContains msg "not found"
    · simp [hc]
    · simp [hc]
  · rw [hmain]
    by_cases hc : strContains msg "not found"
    · simp [hc]
    · simp [hc]

/-- Witness for C2: a collaborator message containing "not found" yields
`missing`; the unknown-kind failure message yields `error` with the
message preserved verbatim and no diffs. -/
theorem compareManifest_fetch_failure_witness :
    CompareManifest "default" "myapp" "service" (.ok [])
        (.error "services \"myapp\" not found") =
      { ns := "default", name := "myapp", kind := "service", status := "missing" } ∧
    CompareManifest "default" "myapp" "Widget" (.ok []) (.ok []) =
      { ns := "default", name := "myapp", kind := "Widget", status := "error",
        error := "unknown resource kind 'Widget'" } := by
  have h1 := (compareManifest_fetch_failure "default" "myapp" "service" [] 
    (.error "services \"myapp\" not found") "services \"myapp\" not found"
    (fetch_service_err "services \"myapp\" not found")).1
  have h2 := (compareManifest_fetch_failure "default" "myapp" "Widget" []
    (.ok []) "unknown resource kind 'Widget'" (fetch_widget_unknown (.ok []))).1
  constructor
  · rw [h1]
    simp [show strContains "services \"myapp\" not found" "not found" = true from by decide]
  · rw [h2]
    simp [show strContains "unknown resource kind 'Widget'" "not found" = false from by decide]

/-- C10: a stored manifest that parses to an empty document compares as
`in_sync` with an empty diff list whenever the live fetch succeeds,
because every difference is an `added` entry, and all `added` entries are
filtered out before classification. -/
theorem compare_empty_stored (ns name kind : String)
    (get : Except String (List (String × Value)))
    (liveMap : List (String × Value))
    (h : FetchAndCleanLiveResource kind (extractAPIVersion []) get = .ok liveMap) :
    CompareManifest ns name kind (.ok []) get =
      { ns := ns, name := name, kind := kind, status := "in_sync" } := by
  have hclean : cleanForImport ([] : List (String × Value)) = [] := rfl
  exact (compareManifest_classification ns name kind [] liveMap get h).1
    (by rw [hclean, DiffMaps_nil_filter])

/-- Witness for C10: an empty stored document against a non-trivial live
document is `in_sync`. -/
theorem compare_empty_stored_witness :
    CompareManifest "default" "myapp" "service" (.ok [])
        (.ok [("a", .vInt 1), ("b", .vStr "x")]) =
      { ns := "default", name := "myapp", kind := "service", status := "in_sync" } :=
  compare_empty_stored "default" "myapp" "service"
    (.ok [("a", .vInt 1), ("b", .vStr "x")])
    (cleanForImport [("a", .vInt 1), ("b", .vStr "x")])
    (fetch_service_ok [("a", .vInt 1), ("b", .vStr "x")])

theorem compareManifest_status (ns name kind : String)
    (parse get : Except String (List (String × Value))) :
    (CompareManifest ns name kind parse get).status = "in_sync" ∨
    (CompareManifest ns name kind parse get).status = "drifted" ∨
    (CompareManifest ns name kind parse get).status = "missing" ∨
    (CompareManifest ns name kind parse get).status = "error" := by
  unfold CompareManifest
  cases parse with
  | error e => simp
  | ok storedRaw =>
    cases hF : FetchAndCleanLiveResource kind (extractAPIVersion storedRaw) get with
    | error msg =>
      simp only [hF]
      by_cases hc : strContains msg "not found" = true
      · rw [if_pos hc]
        right; right; left; rfl
      · rw [if_neg hc]
        right; right; right; rfl
    | ok liveMap =>
      simp only [hF]
      by_cases he : ((DiffMaps (cleanForImport storedRaw) liveMap "").filter
          (fun d => d.changeType ≠ "added")).isEmpty = true
      · rw [if_pos he]
        left; rfl
      · rw [if_neg he]
        right; left; rfl

theorem tallyResult_counts (acc : DriftScanResults) (dr : DriftResult)
    (h : dr.status = "in_sync" ∨ dr.status = "drifted" ∨ dr.status = "missing" ∨
      dr.status = "error") :
    (tallyResult acc dr).results.length = acc.results.length + 1 ∧
    (tallyResult acc dr).inSync + (tallyResult acc dr).drifted +
        (tallyResult acc dr).missing + (tallyResult acc dr).errors =
      acc.inSync + acc.drifted + acc.missing + acc.errors + 1 ∧
    (tallyResult acc dr).total = acc.total := by
  rcases h with h | h | h | h <;> simp [tallyResult, h] <;> omega

theorem scanStep_counts (acc : DriftScanResults) (item : ManifestInfo × ManifestOutcome) :
    (scanStep acc item).results.length = acc.results.length + 1 ∧
    (scanStep acc item).inSync + (scanStep acc item).drifted +
        (scanStep acc item).missing + (scanStep acc item).errors =
      acc.inSync + acc.drifted + acc.missing + acc.errors + 1 ∧
    (scanStep acc item).total = acc.total := by
  obtain ⟨mi, outcome⟩ := item
  cases outcome with
  | readErr msg =>
    exact tallyResult_counts acc _ (Or.inr (Or.inr (Or.inr rfl)))
  | readOk parse get =>
    exact tallyResult_counts acc _ (compareManifest_status mi.ns mi.app mi.ty parse get)

theorem foldl_scanStep_counts (items : List (ManifestInfo × ManifestOutcome)) :
    ∀ acc : DriftScanResults,
      (items.foldl scanStep acc).results.length = acc.results.length + items.length ∧
      (items.foldl scanStep acc).inSync + (items.foldl scanStep acc).drifted +
          (items.foldl scanStep acc).missing + (items.foldl scanStep acc).errors =
        acc.inSync + acc.drifted + acc.missing + acc.errors + items.length ∧
      (items.foldl scanStep acc).total = acc.total := by
  induction items with
  | nil => intro acc; simp
  | cons i rest ih =>
    intro acc
    have h1 := scanStep_counts acc i
    have h2 := ih (scanStep acc i)
    simp only [List.foldl_cons, List.length_cons]
    refine ⟨?_, ?_, ?_⟩ <;> omega

/-- C3: scanning a non-empty list of N stored manifests produces exactly
one `DriftResult` per manifest (a failed manifest read synthesizes an
`error` result directly), sets `ScanResults.total` to N, and the four
status counters sum to N. -/
theorem runDriftScan_aggregation (items : List (ManifestInfo × ManifestOutcome))
    (h : items ≠ []) :
    (∃ res : DriftScanResults, RunDriftScan items = some res ∧
      res.results.length = items.length ∧
      res.total = items.length ∧
      res.inSync + res.drifted + res.missing + res.errors = items.length) ∧
    (∀ (acc : DriftScanResults) (mi : ManifestInfo) (msg : String),
      (scanStep acc (mi, .readErr msg)).results = acc.results ++
        [{ ns := mi.ns, name := mi.app, kind := mi.ty,
           status := "error", error := msg }]) := by
  constructor
  · refine ⟨items.foldl scanStep { total := items.length }, ?_, ?_, ?_, ?_⟩
    · unfold RunDriftScan
      rw [if_neg (by simpa [List.isEmpty_iff] using h)]
    · simpa using (foldl_scanStep_counts items { total := items.length }).1
    · simpa using (foldl_scanStep_counts items { total := items.length }).2.2
    · simpa using (foldl_scanStep_counts items { total := items.length }).2.1
  · intro acc mi msg
    simp [scanStep, tallyResult]

/-- Witness for C3: a two-manifest scan (one read failure, one comparison)
has total 2, two results, and counters summing to 2. -/
theorem runDriftScan_aggregation_witness :
    (∃ res : DriftScanResults,
      RunDriftScan [(⟨"default", "a", "service"⟩, .readErr "boom"),
        (⟨"default", "b", "service"⟩, .readOk (.ok []) (.ok []))] = some res ∧
      res.results.length = 2 ∧ res.total = 2 ∧
      res.inSync + res.drifted + res.missing + res.errors = 2) := by
  have h := runDriftScan_aggregation
    [(⟨"default", "a", "service"⟩, .readErr "boom"),
      (⟨"default", "b", "service"⟩, .readOk (.ok []) (.ok []))]
    (List.cons_ne_nil _ _)
  simpa using h.1

theorem numericallyEqual_iff (a b : Value) :
    numericallyEqual a b = true ↔
      (Value.beq a b = true ∨
        ∃ q : Rat, toFloat64 a = some q ∧ toFloat64 b = some q) := by
  unfold numericallyEqual
  by_cases hbeq : Value.beq a b = true
  · simp [hbeq]
  · rw [if_neg hbeq]
    cases hA : toFloat64 a with
    | none => simp [hbeq, hA]
    | some qa =>
      cases hB : toFloat64 b with
      | none => simp [hbeq, hA, hB]
      | some qb =>
        simp only [hA, hB, decide_eq_true_eq]
        constructor
        · intro hq
          exact Or.inr ⟨qa, rfl, by rw [hq]⟩
        · intro hr
          rcases hr with hb | ⟨q, hqa, hqb⟩
          · exact absurd hb hbeq
          · exact (Option.some.inj hqa).trans (Option.some.inj hqb).symm

/-- C5: scalar comparison — two values compared as scalars produce no diff
entry exactly when they are deeply equal or both are numbers with equal
numeric value; `{"port": 80}` (integer) vs `{"port": 80.0}` (float) gives
zero entries, and `{"replicas": 3}` vs `{"replicas": 5}` gives exactly one
`changed` entry at path `"replicas"` carrying both values. -/
theorem scalar_diff_characterization :
    (∀ (a b : Value) (p : String),
      (∀ sm lm, ¬(a = .vMap sm ∧ b = .vMap lm)) →
      (∀ ss ls, ¬(a = .vArr ss ∧ b = .vArr ls)) →
      (diffValues a b p = [] ↔
        (Value.beq a b = true ∨
          ∃ q : Rat, toFloat64 a = some q ∧ toFloat64 b = some q)) ∧
      (diffValues a b p = [] ∨
        diffValues a b p = [⟨p, "changed", some a, some b⟩])) ∧
    DiffMaps [("port", .vInt 80)] [("port", .vFloat 80)] "" = [] ∧
    DiffMaps [("replicas", .vInt 3)] [("replicas", .vInt 5)] "" =
      [⟨"replicas", "changed", some (.vInt 3), some (.vInt 5)⟩] := by
  refine ⟨?_, ?_, ?_⟩
  · intro a b p hm ha
    have hred : diffValues a b p =
        if numericallyEqual a b then []
        else [⟨p, "changed", some a, some b⟩] := by
      cases a <;> cases b <;>
        first
        | exact absurd ⟨rfl, rfl⟩ (hm _ _)
        | exact absurd ⟨rfl, rfl⟩ (ha _ _)
        | simp [diffValues]
    rw [hred]
    by_cases hne : numericallyEqual a b = true
    · rw [if_pos hne]
      exact ⟨⟨fun _ => (numericallyEqual_iff a b).mp hne, fun _ => rfl⟩, Or.inl rfl⟩
    · rw [if_neg hne]
      refine ⟨⟨fun hc => absurd hc (by simp), fun hr =>
        absurd ((numericallyEqual_iff a b).mpr hr) hne⟩, Or.inr rfl⟩
  · simp [DiffMaps, diffKeyList, diffValues, unionKeys, sortStrings, keysOf,
      lookupKey, keyPath, numericallyEqual, Value.beq, toFloat64]
  · simp [DiffMaps, diffKeyList, diffValues, unionKeys, sortStrings, keysOf,
      lookupKey, keyPath, numericallyEqual, Value.beq, toFloat64]

/-- Witness for C5: the scalar characterization applied to the integer 80
versus the floating 80 (numerically equal, so no entry). -/
theorem scalar_diff_characterization_witness :
    diffValues (.vInt 80) (.vFloat 80) "port" = [] ↔
      (Value.beq (.vInt 80) (.vFloat 80) = true ∨
        ∃ q : Rat, toFloat64 (.vInt 80) = some q ∧ toFloat64 (.vFloat 80) = some q) :=
  (scalar_diff_characterization.1 (.vInt 80) (.vFloat 80) "port"
    (fun sm lm h => by cases h.1) (fun ss ls h => by cases h.1)).1

theorem mem_keysOf_iff_lookupKey {m : List (String × Value)} {k : String} :
    k ∈ keysOf m ↔ (lookupKey m k).isSome := by
  induction m with
  | nil => simp [keysOf, lookupKey]
  | cons kv rest ih =>
    obtain ⟨k', v⟩ := kv
    by_cases h : k' = k
    · subst h
      simp [keysOf, lookupKey]
    · simp only [keysOf, List.map_cons, List.mem_cons, lookupKey, if_neg h]
      rw [← keysOf]
      constructor
      · intro hmem
        rcases hmem with hk | hmem
        · exact absurd hk.symm h
        · exact ih.mp hmem
      · intro hh
        exact Or.inr (ih.mpr hh)

theorem unionKeys_congr (s1 s2 l1 l2 : List (String × Value))
    (hs : ∀ k, lookupKey s1 k = lookupKey s2 k)
    (hl : ∀ k, lookupKey l1 k = lookupKey l2 k) :
    unionKeys s1 l1 = unionKeys s2 l2 := by
  unfold unionKeys sortStrings
  have hnd1 : ((keysOf s1 ++ keysOf l1).dedup).Nodup := List.nodup_dedup _
  have hnd2 : ((keysOf s2 ++ keysOf l2).dedup).Nodup := List.nodup_dedup _
  apply List.eq_of_perm_of_sorted ?_ (List.sorted_insertionSort _ _)
    (List.sorted_insertionSort _ _)
  refine (List.perm_insertionSort _ _).trans
    (List.Perm.trans ?_ (List.perm_insertionSort _ _).symm)
  rw [List.perm_ext_iff_of_nodup hnd1 hnd2]
  intro a
  simp only [List.mem_dedup, List.mem_append, mem_keysOf_iff_lookupKey, hs a, hl a]

theorem diffKeyList_cons (s l : List (String × Value)) (p k : String)
    (ks : List String) :
    diffKeyList s l p (k :: ks) =
      (match lookupKey s k, lookupKey l k with
       | none, some lv => [⟨keyPath p k, "added", none, some lv⟩]
       | some sv, none => [⟨keyPath p k, "removed", some sv, none⟩]
       | some sv, some lv => diffValues sv lv (keyPath p k)
       | none, none => []) ++ diffKeyList s l p ks := by
  rw [diffKeyList]
  congr 1
  cases lookupKey s k <;> cases lookupKey l k <;> rfl

theorem diffKeyList_congr (s1 s2 l1 l2 : List (String × Value)) (p : String)
    (hs : ∀ k, lookupKey s1 k = lookupKey s2 k)
    (hl : ∀ k, lookupKey l1 k = lookupKey l2 k) :
    ∀ ks, diffKeyList s1 l1 p ks = diffKeyList s2 l2 p ks := by
  intro ks
  induction ks with
  | nil => simp [diffKeyList]
  | cons k rest ih =>
    rw [diffKeyList_cons, diffKeyList_cons, ih, hs k, hl k]

/-- C6: the Differencer's output is deterministic — it emits entries in
lexicographically sorted key order at each nesting level, and its output
depends only on the key/value contents of the two mappings (their lookup
functions), not on their native entry ordering. -/
theorem diffMaps_deterministic :
    (∀ (s1 s2 l1 l2 : List (String × Value)) (p : String),
      (∀ k, lookupKey s1 k = lookupKey s2 k) →
      (∀ k, lookupKey l1 k = lookupKey l2 k) →
      DiffMaps s1 l1 p = DiffMaps s2 l2 p) ∧
    (∀ (s l : List (String × Value)), (unionKeys s l).Sorted (· ≤ ·)) := by
  constructor
  · intro s1 s2 l1 l2 p hs hl
    rw [DiffMaps, DiffMaps, unionKeys_congr s1 s2 l1 l2 hs hl]
    exact diffKeyList_congr s1 s2 l1 l2 p hs hl _
  · intro s l
    exact List.sorted_insertionSort _ _

/-- Witness for C6: two association lists with the same contents in
different entry order produce identical diff output against the same live
map. -/
theorem diffMaps_deterministic_witness :
    DiffMaps [("a", .vInt 1), ("b", .vStr "x")] [("b", .vStr "y")] "" =
      DiffMaps [("b", .vStr "x"), ("a", .vInt 1)] [("b", .vStr "y")] "" := by
  apply diffMaps_deterministic.1
  · intro k
    by_cases h1 : "a" = k <;> by_cases h2 : "b" = k
    · exact absurd (h1.trans h2.symm) (by decide)
    · simp [lookupKey, h1, h2]
    · simp [lookupKey, h1, h2]
    · simp [lookupKey, h1, h2]
  · intro k
    rfl

/-- Per the spec's words: the `added` entries emitted for the live-side
tail beyond the stored sequence's length — one entry per index, carrying
the live element, with no recursion into it. -/
def specAddedTail (path : String) : Nat → List Value → List DiffEntry
  | _, [] => []
  | i, x :: xs => ⟨elemPath path i, "added", none, some x⟩ :: specAddedTail path (i + 1) xs

/-- Per the spec's words: the `removed` entries emitted for the stored-side
tail beyond the live sequence's length. -/
def specRemovedTail (path : String) : Nat → List Value → List DiffEntry
  | _, [] => []
  | i, x :: xs => ⟨elemPath path i, "removed", some x, none⟩ :: specRemovedTail path (i + 1) xs

/-- Per the spec's words: indices present in both sequences are compared
recursively at the indexed path. -/
def specPairwise (path : String) : Nat → List Value → List Value → List DiffEntry
  | i, s :: ss, l :: ls => diffValues s l (elemPath path i) ++ specPairwise path (i + 1) ss ls
  | _, _, _ => []

theorem diffSliceFrom_nil_left (path : String) :
    ∀ (l : List Value) (i : Nat), diffSliceFrom [] l path i = specAddedTail path i l := by
  intro l
  induction l with
  | nil => intro i; simp [diffSliceFrom, specAddedTail]
  | cons x xs ih =>
    intro i
    rw [diffSliceFrom, specAddedTail, ih]

theorem diffSliceFrom_nil_right (path : String) :
    ∀ (s : List Value) (i : Nat), diffSliceFrom s [] path i = specRemovedTail path i s := by
  intro s
  induction s with
  | nil => intro i; simp [diffSliceFrom, specRemovedTail]
  | cons x xs ih =>
    intro i
    rw [diffSliceFrom, specRemovedTail, ih]

theorem diffSliceFrom_append_left (path : String) :
    ∀ (s l1 l2 : List Value) (i : Nat), s.length = l1.length →
      diffSliceFrom s (l1 ++ l2) path i =
        specPairwise path i s l1 ++ specAddedTail path (i + s.length) l2 := by
  intro s
  induction s with
  | nil =>
    intro l1 l2 i h
    have : l1 = [] := List.length_eq_zero.mp h.symm
    subst this
    simp [specPairwise, diffSliceFrom_nil_left]
  | cons a ss ih =>
    intro l1 l2 i h
    cases l1 with
    | nil => simp at h
    | cons b bs =>
      simp only [List.length_cons] at h
      rw [List.cons_append, diffSliceFrom, specPairwise,
        ih bs l2 (i + 1) (by omega)]
      simp only [List.length_cons, List.append_assoc]
      congr 3
      omega

theorem diffSliceFrom_append_right (path : String) :
    ∀ (l s1 s2 : List Value) (i : Nat), s1.length = l.length →
      diffSliceFrom (s1 ++ s2) l path i =
        specPairwise path i s1 l ++ specRemovedTail path (i + l.length) s2 := by
  intro l
  induction l with
  | nil =>
    intro s1 s2 i h
    have : s1 = [] := List.length_eq_zero.mp h
    subst this
    simp [specPairwise, diffSliceFrom_nil_right]
  | cons b bs ih =>
    intro s1 s2 i h
    cases s1 with
    | nil => simp at h
    | cons a as' =>
      simp only [List.length_cons] at h
      rw [List.cons_append, diffSliceFrom, specPairwise,
        ih as' s2 (i + 1) (by omega)]
      simp only [List.length_cons, List.append_assoc]
      congr 3
      omega

/-- C7: sequence comparison — indices present in both sequences are
compared recursively at `path[i]`; every index beyond the shorter
sequence's length yields exactly one entry without recursion: `added`
(live element) when the live side is longer, `removed` (stored element)
when the stored side is longer.  In particular stored length 1 vs live
length 2 gives one `added` at index 1, and stored length 3 vs live
length 1 gives two `removed` at indices 1 and 2. -/
theorem diffSlices_characterization :
    (∀ (s l1 l2 : List Value) (path : String), s.length = l1.length →
      diffSlices s (l1 ++ l2) path =
        specPairwise path 0 s l1 ++ specAddedTail path s.length l2) ∧
    (∀ (s1 s2 l : List Value) (path : String), s1.length = l.length →
      diffSlices (s1 ++ s2) l path =
        specPairwise path 0 s1 l ++ specRemovedTail path l.length s2) ∧
    diffSlices [.vInt 1] [.vInt 1, .vInt 2] "p" =
      [⟨elemPath "p" 1, "added", none, some (.vInt 2)⟩] ∧
    diffSlices [.vInt 1, .vInt 2, .vInt 3] [.vInt 1] "p" =
      [⟨elemPath "p" 1, "removed", some (.vInt 2), none⟩,
       ⟨elemPath "p" 2, "removed", some (.vInt 3), none⟩] := by
  refine ⟨?_, ?_, ?_, ?_⟩
  · intro s l1 l2 path h
    rw [diffSlices, diffSliceFrom_append_left path s l1 l2 0 h]
    simp
  · intro s1 s2 l path h
    rw [diffSlices, diffSliceFrom_append_right path l s1 s2 0 h]
    simp
  · simp [diffSlices, diffSliceFrom, diffValues, numericallyEqual, Value.beq,
      toFloat64]
  · simp [diffSlices, diffSliceFrom, diffValues, numericallyEqual, Value.beq,
      toFloat64]

/-- Witness for C7: the appended-tail characterization at a concrete pair
of sequences (stored length 1, live length 2). -/
theorem diffSlices_characterization_witness :
    diffSlices [.vStr "a"] ([.vStr "a"] ++ [.vStr "b"]) "p" =
      specPairwise "p" 0 [.vStr "a"] [.vStr "a"] ++
        specAddedTail "p" 1 [.vStr "b"] :=
  diffSlices_characterization.1 [.vStr "a"] [.vStr "a"] [.vStr "b"] "p" rfl

theorem eraseKey_cons (k k' : String) (v : Value) (rest : List (String × Value)) :
    eraseKey k ((k', v) :: rest) =
      if k' = k then eraseKey k rest else (k', v) :: eraseKey k rest := by
  simp only [eraseKey, List.filter_cons]
  by_cases h : k' = k <;> simp [h]

theorem setKey_cons (k : String) (v : Value) (k' : String) (w : Value)
    (rest : List (String × Value)) :
    setKey k v ((k', w) :: rest) =
      (if k' = k then (k, v) else (k', w)) :: setKey k v rest := by
  simp [setKey]

theorem lookup_eraseKey_self (k : String) (m : List (String × Value)) :
    lookupKey (eraseKey k m) k = none := by
  induction m with
  | nil => rfl
  | cons kv rest ih =>
    obtain ⟨k', v⟩ := kv
    rw [eraseKey_cons]
    by_cases h : k' = k
    · simp [h, ih]
    · simp [h, lookupKey, ih]

theorem lookup_eraseKey_ne {k k' : String} (h : k' ≠ k) (m : List (String × Value)) :
    lookupKey (eraseKey k' m) k = lookupKey m k := by
  induction m with
  | nil => rfl
  | cons kv rest ih =>
    obtain ⟨k1, v⟩ := kv
    rw [eraseKey_cons]
    by_cases h1 : k1 = k'
    · subst h1
      have hk : k1 ≠ k := h
      simp [lookupKey, hk, ih]
    · by_cases h2 : k1 = k <;> simp [h1, lookupKey, h2, ih, Ne.symm h]

theorem lookup_none_no_key {k : String} {m : List (String × Value)}
    (h : lookupKey m k = none) : ∀ p ∈ m, p.1 ≠ k := by
  induction m with
  | nil => simp
  | cons kv rest ih =>
    obtain ⟨k', v⟩ := kv
    simp only [lookupKey] at h
    intro p hp
    by_cases hk : k' = k
    · rw [if_pos hk] at h
      cases h
    · rw [if_neg hk] at h
      rcases List.mem_cons.mp hp with hp1 | hp1
      · subst hp1
        simpa using hk
      · exact ih h p hp1

theorem eraseKey_of_lookup_none {k : String} {m : List (String × Value)}
    (h : lookupKey m k = none) : eraseKey k m = m := by
  unfold eraseKey
  apply List.filter_eq_self.mpr
  intro p hp
  simpa using lookup_none_no_key h p hp

theorem eraseKey_idem (k : String) (m : List (String × Value)) :
    eraseKey k (eraseKey k m) = eraseKey k m :=
  eraseKey_of_lookup_none (lookup_eraseKey_self k m)

theorem eraseKey_setKey (k' k : String) (v : Value) (m : List (String × Value)) :
    eraseKey k' (setKey k v m) = setKey k v (eraseKey k' m) := by
  induction m with
  | nil => rfl
  | cons kv rest ih =>
    obtain ⟨k1, w⟩ := kv
    by_cases h1 : k1 = k
    · subst h1
      by_cases h2 : k1 = k'
      · subst h2
        simp [setKey_cons, eraseKey_cons, ih]
      · simp [setKey_cons, eraseKey_cons, h2, ih]
    · by_cases h2 : k1 = k'
      · subst h2
        simp [setKey_cons, eraseKey_cons, h1, ih]
      · simp [setKey_cons, eraseKey_cons, h1, h2, ih]

theorem setKey_setKey_same (k : String) (v : Value) (m : List (String × Value)) :
    setKey k v (setKey k v m) = setKey k v m := by
  unfold setKey
  rw [List.map_map]
  apply List.map_congr_left
  intro p _
  by_cases h : p.1 = k <;> simp [h]

theorem setKey_comm {k k' : String} (h : k ≠ k') (v w : Value)
    (m : List (String × Value)) :
    setKey k v (setKey k' w m) = setKey k' w (setKey k v m) := by
  unfold setKey
  rw [List.map_map, List.map_map]
  apply List.map_congr_left
  intro p _
  by_cases h1 : p.1 = k <;> by_cases h2 : p.1 = k' <;>
    first
    | exact absurd (h1.symm.trans h2) h
    | simp [Function.comp, h1, h2, h, Ne.symm h]

theorem lookup_setKey_self {k : String} {m : List (String × Value)}
    (h : (lookupKey m k).isSome) (v : Value) :
    lookupKey (setKey k v m) k = some v := by
  induction m with
  | nil => simp [lookupKey] at h
  | cons kv rest ih =>
    obtain ⟨k1, w⟩ := kv
    rw [setKey_cons]
    by_cases h1 : k1 = k
    · rw [if_pos h1]
      simp [lookupKey]
    · rw [if_neg h1]
      simp only [lookupKey, if_neg h1]
      apply ih
      simpa [lookupKey, if_neg h1] using h

theorem lookup_setKey_ne {k k' : String} (h : k' ≠ k) (v : Value)
    (m : List (String × Value)) :
    lookupKey (setKey k' v m) k = lookupKey m k := by
  induction m with
  | nil => rfl
  | cons kv rest ih =>
    obtain ⟨k1, w⟩ := kv
    rw [setKey_cons]
    by_cases h1 : k1 = k'
    · subst h1
      rw [if_pos rfl]
      have hk : ¬k1 = k := h
      simp only [lookupKey, if_neg hk]
      exact ih
    · rw [if_neg h1]
      simp only [lookupKey]
      by_cases h2 : k1 = k
      · rw [if_pos h2, if_pos h2]
      · rw [if_neg h2, if_neg h2]
        exact ih

theorem filter_keep_idem (ann : List (String × Value)) :
    (ann.filter (fun p => ¬ shouldRemoveAnnotation p.1)).filter
        (fun p => ¬ shouldRemoveAnnotation p.1) =
      ann.filter (fun p => ¬ shouldRemoveAnnotation p.1) := by
  apply List.filter_eq_self.mpr
  intro p hp
  exact (List.mem_filter.mp hp).2

theorem eraseKey_comm (k k' : String) (m : List (String × Value)) :
    eraseKey k (eraseKey k' m) = eraseKey k' (eraseKey k m) := by
  unfold eraseKey
  rw [List.filter_filter, List.filter_filter]
  congr 1
  funext p
  rw [Bool.and_comm]

theorem cleanAnnotations_of_map {X : List (String × Value)}
    {ann : List (String × Value)}
    (h : lookupKey X "annotations" = some (.vMap ann)) :
    cleanAnnotations X =
      (if (ann.filter (fun p => ¬ shouldRemoveAnnotation p.1)).isEmpty then
        eraseKey "annotations" X
      else
        setKey "annotations"
          (.vMap (ann.filter (fun p => ¬ shouldRemoveAnnotation p.1))) X) := by
  unfold cleanAnnotations
  rw [h]

theorem cleanAnnotations_of_not_map {X : List (String × Value)}
    (h : ∀ ann, lookupKey X "annotations" ≠ some (.vMap ann)) :
    cleanAnnotations X = X := by
  unfold cleanAnnotations
  rcases hX : lookupKey X "annotations" with _ | v
  · rfl
  · match v with
    | .vMap ann => exact absurd hX (h ann)
    | .vNull | .vBool _ | .vInt _ | .vFloat _ | .vStr _ | .vArr _ => rfl

theorem cleanAnnotations_idem (X : List (String × Value)) :
    cleanAnnotations (cleanAnnotations X) = cleanAnnotations X := by
  rcases hX : lookupKey X "annotations" with _ | v
  · have hin : cleanAnnotations X = X :=
      cleanAnnotations_of_not_map (fun ann h => by rw [hX] at h; cases h)
    rw [hin, hin]
  · match v with
    | .vMap ann =>
      rw [cleanAnnotations_of_map hX]
      by_cases hk : (ann.filter (fun p => ¬ shouldRemoveAnnotation p.1)).isEmpty
      · rw [if_pos hk]
        exact cleanAnnotations_of_not_map
          (fun ann' h => by rw [lookup_eraseKey_self] at h; cases h)
      · rw [if_neg hk]
        have hl : lookupKey (setKey "annotations"
            (.vMap (ann.filter (fun p => ¬ shouldRemoveAnnotation p.1))) X)
            "annotations" =
            some (.vMap (ann.filter (fun p => ¬ shouldRemoveAnnotation p.1))) :=
          lookup_setKey_self (by rw [hX]; rfl) _
        rw [cleanAnnotations_of_map hl, filter_keep_idem, if_neg hk,
          setKey_setKey_same]
    | .vNull | .vBool _ | .vInt _ | .vFloat _ | .vStr _ | .vArr _ =>
      have hin : cleanAnnotations X = X :=
        cleanAnnotations_of_not_map (fun ann h => by rw [hX] at h; cases h)
      rw [hin, hin]

theorem eraseKey_cleanAnnotations {k : String} (h : k ≠ "annotations")
    (X : List (String × Value)) :
    eraseKey k (cleanAnnotations X) = cleanAnnotations (eraseKey k X) := by
  have hlook : lookupKey (eraseKey k X) "annotations" = lookupKey X "annotations" :=
    lookup_eraseKey_ne h X
  rcases hX : lookupKey X "annotations" with _ | v
  · rw [cleanAnnotations_of_not_map (fun ann hh => by rw [hX] at hh; cases hh),
      cleanAnnotations_of_not_map (fun ann hh => by rw [hlook, hX] at hh; cases hh)]
  · match v with
    | .vMap ann =>
      rw [cleanAnnotations_of_map hX, cleanAnnotations_of_map (hlook.trans hX)]
      by_cases hk : (ann.filter (fun p => ¬ shouldRemoveAnnotation p.1)).isEmpty
      · rw [if_pos hk, if_pos hk]
        exact eraseKey_comm _ _ _
      · rw [if_neg hk, if_neg hk]
        exact eraseKey_setKey _ _ _ _
    | .vNull | .vBool _ | .vInt _ | .vFloat _ | .vStr _ | .vArr _ =>
      rw [cleanAnnotations_of_not_map (fun ann hh => by rw [hX] at hh; cases hh),
        cleanAnnotations_of_not_map (fun ann hh => by rw [hlook, hX] at hh; cases hh)]

theorem lookupE6 (md : List (String × Value)) :
    lookupKey (eraseKey "selfLink" (eraseKey "managedFields"
      (eraseKey "creationTimestamp" (eraseKey "generation"
        (eraseKey "resourceVersion" (eraseKey "uid" md)))))) "uid" = none ∧
    lookupKey (eraseKey "selfLink" (eraseKey "managedFields"
      (eraseKey "creationTimestamp" (eraseKey "generation"
        (eraseKey "resourceVersion" (eraseKey "uid" md)))))) "resourceVersion" = none ∧
    lookupKey (eraseKey "selfLink" (eraseKey "managedFields"
      (eraseKey "creationTimestamp" (eraseKey "generation"
        (eraseKey "resourceVersion" (eraseKey "uid" md)))))) "generation" = none ∧
    lookupKey (eraseKey "selfLink" (eraseKey "managedFields"
      (eraseKey "creationTimestamp" (eraseKey "generation"
        (eraseKey "resourceVersion" (eraseKey "uid" md)))))) "creationTimestamp" = none ∧
    lookupKey (eraseKey "selfLink" (eraseKey "managedFields"
      (eraseKey "creationTimestamp" (eraseKey "generation"
        (eraseKey "resourceVersion" (eraseKey "uid" md)))))) "managedFields" = none ∧
    lookupKey (eraseKey "selfLink" (eraseKey "managedFields"
      (eraseKey "creationTimestamp" (eraseKey "generation"
        (eraseKey "resourceVersion" (eraseKey "uid" md)))))) "selfLink" = none := by
  refine ⟨?_, ?_, ?_, ?_, ?_, ?_⟩ <;>
    · repeat rw [lookup_eraseKey_ne (by decide)]
      exact lookup_eraseKey_self _ _

theorem erase6_idem (md : List (String × Value)) :
    eraseKey "selfLink" (eraseKey "managedFields" (eraseKey "creationTimestamp"
      (eraseKey "generation" (eraseKey "resourceVersion" (eraseKey "uid"
        (eraseKey "selfLink" (eraseKey "managedFields" (eraseKey "creationTimestamp"
          (eraseKey "generation" (eraseKey "resourceVersion"
            (eraseKey "uid" md))))))))))) =
    eraseKey "selfLink" (eraseKey "managedFields" (eraseKey "creationTimestamp"
      (eraseKey "generation" (eraseKey "resourceVersion" (eraseKey "uid" md))))) := by
  obtain ⟨h1, h2, h3, h4, h5, h6⟩ := lookupE6 md
  rw [eraseKey_of_lookup_none h1, eraseKey_of_lookup_none h2,
    eraseKey_of_lookup_none h3, eraseKey_of_lookup_none h4,
    eraseKey_of_lookup_none h5, eraseKey_of_lookup_none h6]

theorem cleanMetadataFields_idem (md : List (String × Value)) :
    cleanMetadataFields (cleanMetadataFields md) = cleanMetadataFields md := by
  unfold cleanMetadataFields
  rw [eraseKey_cleanAnnotations (by decide), eraseKey_cleanAnnotations (by decide),
    eraseKey_cleanAnnotations (by decide), eraseKey_cleanAnnotations (by decide),
    eraseKey_cleanAnnotations (by decide), eraseKey_cleanAnnotations (by decide),
    erase6_idem]
  exact cleanAnnotations_idem _

theorem clean2_idem (sp : List (String × Value)) :
    eraseKey "clusterIPs" (eraseKey "clusterIP"
      (eraseKey "clusterIPs" (eraseKey "clusterIP" sp))) =
    eraseKey "clusterIPs" (eraseKey "clusterIP" sp) := by
  have h1 : lookupKey (eraseKey "clusterIPs" (eraseKey "clusterIP" sp))
      "clusterIP" = none := by
    rw [lookup_eraseKey_ne (by decide)]
    exact lookup_eraseKey_self _ _
  rw [eraseKey_of_lookup_none h1]
  exact eraseKey_idem _ _

theorem cleanMetadataStage_of_map {X md} (h : lookupKey X "metadata" = some (.vMap md)) :
    cleanMetadataStage X = setKey "metadata" (.vMap (cleanMetadataFields md)) X := by
  unfold cleanMetadataStage
  rw [h]

theorem cleanMetadataStage_of_not_map {X}
    (h : ∀ md, lookupKey X "metadata" ≠ some (.vMap md)) :
    cleanMetadataStage X = X := by
  unfold cleanMetadataStage
  rcases hX : lookupKey X "metadata" with _ | v
  · rfl
  · match v with
    | .vMap md => exact absurd hX (h md)
    | .vNull | .vBool _ | .vInt _ | .vFloat _ | .vStr _ | .vArr _ => rfl

theorem cleanSpecStage_of_map {X sp} (h : lookupKey X "spec" = some (.vMap sp)) :
    cleanSpecStage X =
      setKey "spec" (.vMap (eraseKey "clusterIPs" (eraseKey "clusterIP" sp))) X := by
  unfold cleanSpecStage
  rw [h]

theorem cleanSpecStage_of_not_map {X}
    (h : ∀ sp, lookupKey X "spec" ≠ some (.vMap sp)) :
    cleanSpecStage X = X := by
  unfold cleanSpecStage
  rcases hX : lookupKey X "spec" with _ | v
  · rfl
  · match v with
    | .vMap sp => exact absurd hX (h sp)
    | .vNull | .vBool _ | .vInt _ | .vFloat _ | .vStr _ | .vArr _ => rfl

theorem cleanMetadataStage_idem (X : List (String × Value)) :
    cleanMetadataStage (cleanMetadataStage X) = cleanMetadataStage X := by
  rcases hm : lookupKey X "metadata" with _ | v
  · have hin : cleanMetadataStage X = X :=
      cleanMetadataStage_of_not_map (fun md h => by rw [hm] at h; cases h)
    rw [hin, hin]
  · match v with
    | .vMap md =>
      rw [cleanMetadataStage_of_map hm]
      have hl : lookupKey (setKey "metadata" (.vMap (cleanMetadataFields md)) X)
          "metadata" = some (.vMap (cleanMetadataFields md)) :=
        lookup_setKey_self (by rw [hm]; rfl) _
      rw [cleanMetadataStage_of_map hl, cleanMetadataFields_idem, setKey_setKey_same]
    | .vNull | .vBool _ | .vInt _ | .vFloat _ | .vStr _ | .vArr _ =>
      have hin : cleanMetadataStage X = X :=
        cleanMetadataStage_of_not_map (fun md h => by rw [hm] at h; cases h)
      rw [hin, hin]

theorem cleanSpecStage_idem (X : List (String × Value)) :
    cleanSpecStage (cleanSpecStage X) = cleanSpecStage X := by
  rcases hs : lookupKey X "spec" with _ | v
  · have hin : cleanSpecStage X = X :=
      cleanSpecStage_of_not_map (fun sp h => by rw [hs] at h; cases h)
    rw [hin, hin]
  · match v with
    | .vMap sp =>
      rw [cleanSpecStage_of_map hs]
      have hl : lookupKey (setKey "spec"
          (.vMap (eraseKey "clusterIPs" (eraseKey "clusterIP" sp))) X) "spec" =
          some (.vMap (eraseKey "clusterIPs" (eraseKey "clusterIP" sp))) :=
        lookup_setKey_self (by rw [hs]; rfl) _
      rw [cleanSpecStage_of_map hl, clean2_idem, setKey_setKey_same]
    | .vNull | .vBool _ | .vInt _ | .vFloat _ | .vStr _ | .vArr _ =>
      have hin : cleanSpecStage X = X :=
        cleanSpecStage_of_not_map (fun sp h => by rw [hs] at h; cases h)
      rw [hin, hin]

theorem eraseKey_cleanMetadataStage {k : String} (h : k ≠ "metadata")
    (X : List (String × Value)) :
    eraseKey k (cleanMetadataStage X) = cleanMetadataStage (eraseKey k X) := by
  have hlook : lookupKey (eraseKey k X) "metadata" = lookupKey X "metadata" :=
    lookup_eraseKey_ne h X
  rcases hm : lookupKey X "metadata" with _ | v
  · rw [cleanMetadataStage_of_not_map (fun md hh => by rw [hm] at hh; cases hh),
      cleanMetadataStage_of_not_map (fun md hh => by rw [hlook, hm] at hh; cases hh)]
  · match v with
    | .vMap md =>
      rw [cleanMetadataStage_of_map hm, cleanMetadataStage_of_map (hlook.trans hm),
        eraseKey_setKey]
    | .vNull | .vBool _ | .vInt _ | .vFloat _ | .vStr _ | .vArr _ =>
      rw [cleanMetadataStage_of_not_map (fun md hh => by rw [hm] at hh; cases hh),
        cleanMetadataStage_of_not_map (fun md hh => by rw [hlook, hm] at hh; cases hh)]

theorem eraseKey_cleanSpecStage {k : String} (h : k ≠ "spec")
    (X : List (String × Value)) :
    eraseKey k (cleanSpecStage X) = cleanSpecStage (eraseKey k X) := by
  have hlook : lookupKey (eraseKey k X) "spec" = lookupKey X "spec" :=
    lookup_eraseKey_ne h X
  rcases hs : lookupKey X "spec" with _ | v
  · rw [cleanSpecStage_of_not_map (fun sp hh => by rw [hs] at hh; cases hh),
      cleanSpecStage_of_not_map (fun sp hh => by rw [hlook, hs] at hh; cases hh)]
  · match v with
    | .vMap sp =>
      rw [cleanSpecStage_of_map hs, cleanSpecStage_of_map (hlook.trans hs),
        eraseKey_setKey]
    | .vNull | .vBool _ | .vInt _ | .vFloat _ | .vStr _ | .vArr _ =>
      rw [cleanSpecStage_of_not_map (fun sp hh => by rw [hs] at hh; cases hh),
        cleanSpecStage_of_not_map (fun sp hh => by rw [hlook, hs] at hh; cases hh)]

theorem setKey_cleanSpecStage {k : String} (h : k ≠ "spec") (v : Value)
    (X : List (String × Value)) :
    setKey k v (cleanSpecStage X) = cleanSpecStage (setKey k v X) := by
  have hlook : lookupKey (setKey k v X) "spec" = lookupKey X "spec" :=
    lookup_setKey_ne h v X
  rcases hs : lookupKey X "spec" with _ | w
  · rw [cleanSpecStage_of_not_map (fun sp hh => by rw [hs] at hh; cases hh),
      cleanSpecStage_of_not_map (fun sp hh => by rw [hlook, hs] at hh; cases hh)]
  · match w with
    | .vMap sp =>
      rw [cleanSpecStage_of_map hs, cleanSpecStage_of_map (hlook.trans hs),
        setKey_comm h]
    | .vNull | .vBool _ | .vInt _ | .vFloat _ | .vStr _ | .vArr _ =>
      rw [cleanSpecStage_of_not_map (fun sp hh => by rw [hs] at hh; cases hh),
        cleanSpecStage_of_not_map (fun sp hh => by rw [hlook, hs] at hh; cases hh)]

theorem lookup_cleanSpecStage_ne {k : String} (h : k ≠ "spec")
    (X : List (String × Value)) :
    lookupKey (cleanSpecStage X) k = lookupKey X k := by
  rcases hs : lookupKey X "spec" with _ | w
  · rw [cleanSpecStage_of_not_map (fun sp hh => by rw [hs] at hh; cases hh)]
  · match w with
    | .vMap sp =>
      rw [cleanSpecStage_of_map hs, lookup_setKey_ne (Ne.symm h)]
    | .vNull | .vBool _ | .vInt _ | .vFloat _ | .vStr _ | .vArr _ =>
      rw [cleanSpecStage_of_not_map (fun sp hh => by rw [hs] at hh; cases hh)]

theorem cleanMetadataStage_cleanSpecStage (X : List (String × Value)) :
    cleanMetadataStage (cleanSpecStage X) = cleanSpecStage (cleanMetadataStage X) := by
  have hlook : lookupKey (cleanSpecStage X) "metadata" = lookupKey X "metadata" :=
    lookup_cleanSpecStage_ne (by decide) X
  rcases hm : lookupKey X "metadata" with _ | v
  · rw [cleanMetadataStage_of_not_map (fun md hh => by rw [hlook, hm] at hh; cases hh),
      cleanMetadataStage_of_not_map (fun md hh => by rw [hm] at hh; cases hh)]
  · match v with
    | .vMap md =>
      rw [cleanMetadataStage_of_map (hlook.trans hm), cleanMetadataStage_of_map hm,
        setKey_cleanSpecStage (by decide)]
    | .vNull | .vBool _ | .vInt _ | .vFloat _ | .vStr _ | .vArr _ =>
      rw [cleanMetadataStage_of_not_map (fun md hh => by rw [hlook, hm] at hh; cases hh),
        cleanMetadataStage_of_not_map (fun md hh => by rw [hm] at hh; cases hh)]

/-- C9: canonicalization is idempotent — applying `cleanForImport` twice
yields the same document as applying it once; the removals of identity
metadata, tooling annotations, the empty annotation map, the status
subtree, and cluster-assigned spec addressing fields are all stable under
re-application. -/
theorem cleanForImport_idem (r : List (String × Value)) :
    cleanForImport (cleanForImport r) = cleanForImport r := by
  unfold cleanForImport
  rw [cleanMetadataStage_cleanSpecStage,
    eraseKey_cleanSpecStage (by decide),
    cleanSpecStage_idem,
    ← eraseKey_cleanMetadataStage (by decide),
    cleanMetadataStage_idem,
    eraseKey_idem]
